import Mathlib

/-!
Verification of the melon application-server framework's dispatch
pipeline: router, filter chain with recovery, provider registry with
content negotiation, resource adaptation, server environment and the
admin environment.  Definitions are shallow embeddings of the Go code
under `src/`; components whose implementation is not part of the
provided sources (the router, the filter chain, the recovery filter and
the serialization providers) are modelled from the specification and are
marked as such in their doc comments.
-/

namespace Melon

/-! ## Basic character-list utilities -/

/-- Split a character list on a separator character.  Used to split
request paths and patterns on the path separator, and header values on
commas and semicolons. -/
def splitChar (sep : Char) : List Char → List (List Char)
  | [] => [[]]
  | c :: cs =>
    if c = sep then [] :: splitChar sep cs
    else
      match splitChar sep cs with
      | [] => [[c]]
      | g :: gs => (c :: g) :: gs

/-- Trim ASCII spaces from both ends of a character list. -/
def trimChars (cs : List Char) : List Char :=
  ((cs.dropWhile (fun c => c = ' ')).reverse.dropWhile (fun c => c = ' ')).reverse

/-! ## Router

Modelled from the spec: the router implementation itself is not among
the provided sources (only its `ServerHandler` interface declaration in
`core` and its callers are), so the pattern syntax, matching algorithm
and registration rules below follow the specification, section 4.1. -/

/-- A single pattern segment: either a literal that must match exactly,
or a named parameter (written with a `:` marker prefix in the pattern
string) that matches any non-empty request segment. -/
inductive Seg where
  | lit (s : String)
  | param (name : String)
deriving DecidableEq, Repr

/-- Parse one pattern segment: a leading `:` marks a parameter. -/
def parseSegment (cs : List Char) : Seg :=
  match cs with
  | ':' :: rest => .param (String.mk rest)
  | _ => .lit (String.mk cs)

/-- Parse a pattern string into segments (split on the path separator). -/
def patternSegs (p : String) : List Seg :=
  (splitChar '/' p.data).map parseSegment

/-- Split a request path into its segments. -/
def pathSegs (p : String) : List String :=
  (splitChar '/' p.data).map String.mk

/-- Modelled from the spec: match a parsed pattern against the request
segments position by position.  A literal must equal the request segment
exactly; a parameter matches any non-empty segment and binds its name.
Differing segment counts never match. -/
def matchSegs : List Seg → List String → Option (List (String × String))
  | [], [] => some []
  | .lit l :: ps, s :: ss => if l = s then matchSegs ps ss else none
  | .param n :: ps, s :: ss =>
    if s = "" then none else (matchSegs ps ss).map (fun b => (n, s) :: b)
  | _, _ => none

/-- Number of parameter segments in a pattern (its non-specificity). -/
def paramCount : List Seg → Nat
  | [] => 0
  | .param _ :: ps => paramCount ps + 1
  | .lit _ :: ps => paramCount ps

/-- A registered route: method, parsed pattern and an opaque handler
identified by a number. -/
structure Route where
  method : String
  pattern : List Seg
  handler : Nat
deriving DecidableEq, Repr

/-- Two patterns are unifiable when some request path is matched by
both: at every position either the literals agree or at least one side
is a parameter (matching the other side's non-empty text). -/
def unifiable : List Seg → List Seg → Bool
  | [], [] => true
  | .lit a :: xs, .lit b :: ys => a = b && unifiable xs ys
  | .lit a :: xs, .param _ :: ys => (decide (a ≠ "")) && unifiable xs ys
  | .param _ :: xs, .lit b :: ys => (decide (b ≠ "")) && unifiable xs ys
  | .param _ :: xs, .param _ :: ys => unifiable xs ys
  | _, _ => false

/-- Modelled from the spec: two patterns tie when they are unifiable and
have the same number of parameter segments; the specificity tie-break of
the matcher cannot separate them, so registering both is an error. -/
def ties (p q : List Seg) : Bool :=
  paramCount p = paramCount q && unifiable p q

/-- Modelled from the spec: `Handle(method, pattern, handler)` registers
a route and fails, at registration time, when an existing route of the
same method has a tying pattern (in particular when the same
(method, pattern) pair is registered twice). -/
def handle (routes : List Route) (method pattern : String) (h : Nat) :
    Except String (List Route) :=
  let pat := patternSegs pattern
  if routes.any (fun r => r.method = method && ties r.pattern pat) then
    .error ("duplicate route: " ++ method ++ " " ++ pattern)
  else
    .ok (routes ++ [⟨method, pat, h⟩])

/-- Outcome of matching a request against the route table. -/
inductive MatchResult where
  | found (handler : Nat) (params : List (String × String))
  | methodNotAllowed (allowed : List String)
  | notFound
deriving DecidableEq, Repr

/-- All routes whose pattern matches the request segments, paired with
the parameter bindings they extract. -/
def candidates (routes : List Route) (segs : List String) :
    List (Route × List (String × String)) :=
  routes.filterMap (fun r => (matchSegs r.pattern segs).map (fun b => (r, b)))

/-- Among matching candidates pick the one with the fewest parameter
segments (the most specific); the earlier registration wins a tie, but
ties are already rejected at registration time. -/
def pickMin : List (Route × List (String × String)) →
    Option (Route × List (String × String))
  | [] => none
  | x :: xs =>
    match pickMin xs with
    | none => some x
    | some y =>
      if paramCount x.1.pattern ≤ paramCount y.1.pattern then some x else some y

/-- Modelled from the spec: `Match(method, path)`.  Split the path,
collect patterns matching all segments, then pick the most specific
route for the exact method; a method of `"*"` on a route matches any
request method but only when no exact-method route matches; otherwise
report 405 with the methods registered for the matching patterns, or 404
when no pattern matches. -/
def matchReq (routes : List Route) (method path : String) : MatchResult :=
  let segs := pathSegs path
  let cands := candidates routes segs
  if cands.isEmpty then .notFound
  else
    match pickMin (cands.filter (fun c => c.1.method = method)) with
    | some rb => .found rb.1.handler rb.2
    | none =>
      match pickMin (cands.filter (fun c => c.1.method = "*")) with
      | some rb => .found rb.1.handler rb.2
      | none => .methodNotAllowed ((cands.map (fun c => c.1.method)).dedup)

/-! ## Filter chain and recovery filter

Modelled from the spec: the filter chain and the recovery filter
implementations are not among the provided sources; only the recovery
filter's test (`testFilter` in the recovery package tests) is, and it
pins the fixed 500 body down to `http.StatusText(500)`, which is
`"Internal Server Error"`.  A Go panic inside a handler is modelled as a
`panicked` outcome that propagates outward unless a filter intercepts
it. -/

/-- An HTTP request, reduced to the parts the dispatch core reads. -/
structure HttpReq where
  method : String
  path : String
deriving DecidableEq, Repr

/-- An HTTP response: status code and body. -/
structure HttpResp where
  code : Nat
  body : String
deriving DecidableEq, Repr

/-- Outcome of running a handler: a clean response, or a panic (or
equivalent unchecked fault such as a nil-pointer dereference)
propagating out of it. -/
inductive HandlerOutcome where
  | ok (resp : HttpResp)
  | panicked (msg : String)
deriving DecidableEq, Repr

/-- A filter wraps the continuation to the rest of the chain. -/
def FilterFn : Type :=
  (HttpReq → HandlerOutcome) → HttpReq → HandlerOutcome

/-- Modelled from the spec: `Chain.ServeHTTP` runs the filters in
registration order, each receiving the rest of the chain as its `next`
continuation, with the terminal handler last. -/
def chainServe : List FilterFn → (HttpReq → HandlerOutcome) → HttpReq → HandlerOutcome
  | [], terminal => terminal
  | f :: fs, terminal => f (chainServe fs terminal)

/-- The fixed plain-text body the recovery filter writes on a caught
panic: `http.StatusText(http.StatusInternalServerError)` plus the
newline, exactly what the recovery package test expects. -/
def recoveryBody : String := "Internal Server Error\n"

/-- Modelled from the spec: the Recovery Filter runs the rest of the
chain; a panic anywhere downstream is caught exactly once, converted to
a 500 response with the fixed body, and never re-raised. -/
def recoveryFilter : FilterFn := fun next req =>
  match next req with
  | .panicked _ => .ok ⟨500, recoveryBody⟩
  | .ok r => .ok r

/-- A worker serving a queue of requests: a panic escaping the chain
kills the worker, so requests after it get no response. -/
def runWorker (serve : HttpReq → HandlerOutcome) : List HttpReq → List HttpResp
  | [] => []
  | r :: rs =>
    match serve r with
    | .ok resp => resp :: runWorker serve rs
    | .panicked _ => []

/-! ## Server environment (from `core` `ServerEnvironment` in the
provided sources).  Components and resource handlers are identified by
numbers; invoking a resource handler on a component is recorded as a
trace entry, since `HandleResource` is an opaque callback. -/

/-- The server environment: registered components and added resource
handlers, in their registration order. -/
structure ServerEnvironment where
  components : List Nat
  resourceHandlers : List Nat
deriving DecidableEq, Repr

/-- `Register` appends components to the environment. -/
def ServerEnvironment.register (env : ServerEnvironment) (cs : List Nat) :
    ServerEnvironment :=
  { env with components := env.components ++ cs }

/-- `AddResourceHandler` appends resource handlers. -/
def ServerEnvironment.addResourceHandler (env : ServerEnvironment) (hs : List Nat) :
    ServerEnvironment :=
  { env with resourceHandlers := env.resourceHandlers ++ hs }

/-- The loop of `ServerEnvironment.handle`: iterate the handler index
downward from `len(resourceHandlers)-1` to `0` (`// Last handler first`),
invoking each handler on the component. -/
def handleLoop (hs : List Nat) (c : Nat) : Nat → List (Nat × Nat)
  | 0 => []
  | i + 1 => (hs.getD i 0, c) :: handleLoop hs c i

/-- `ServerEnvironment.handle(component)`: every resource handler is
invoked on the component, last-added handler first. -/
def ServerEnvironment.handleComponent (env : ServerEnvironment) (c : Nat) :
    List (Nat × Nat) :=
  handleLoop env.resourceHandlers c env.resourceHandlers.length

/-- `onStarting`: every registered component is handed to `handle`, in
registration order.  The result is the trace of
(resource handler, component) invocations. -/
def ServerEnvironment.onStarting (env : ServerEnvironment) : List (Nat × Nat) :=
  env.components.flatMap env.handleComponent

/-! ## Provider registry and content negotiation

The registration order `[JSONProvider, XMLProvider]` comes from
`rest/application.go` in the provided sources.  The provider media types
and the negotiation algorithm are modelled from the spec (section 4.3):
quality-value parsing with absent weight 1.0; explicit weights order the
media ranges; `*/*` matches anything at lowest certainty; the selected
provider is the first registered one producing an acceptable type;
absence of an Accept header falls back to the first registered
provider. -/

/-- A serialization provider: the media types it produces/consumes. -/
structure Provider where
  name : String
  produces : List String
  consumes : List String
deriving DecidableEq, Repr

/-- Modelled from the spec: the JSON provider. -/
def jsonProvider : Provider :=
  ⟨"json", ["application/json"], ["application/json"]⟩

/-- Modelled from the spec: the XML provider. -/
def xmlProvider : Provider :=
  ⟨"xml", ["application/xml"], ["application/xml"]⟩

/-- The providers of the RESTful application, in registration order
(`rest/application.go`). -/
def restProviders : List Provider := [jsonProvider, xmlProvider]

/-- Numeric value of an ASCII digit (0 for non-digits). -/
def digitVal (c : Char) : Nat :=
  if 48 ≤ c.toNat ∧ c.toNat ≤ 57 then c.toNat - 48 else 0

/-- Fractional quality digits to per-mille: `"5" ↦ 500`, `"25" ↦ 250`. -/
def fracMillis : List Char → Nat
  | [] => 0
  | [a] => digitVal a * 100
  | [a, b] => digitVal a * 100 + digitVal b * 10
  | a :: b :: c :: _ => digitVal a * 100 + digitVal b * 10 + digitVal c

/-- Parse a quality value into per-mille: `"1"` and `"1.0"` are 1000,
`"0.5"` is 500, `"0"` is 0; anything unrecognised defaults to 1000. -/
def parseMillis : List Char → Nat
  | '1' :: _ => 1000
  | '0' :: '.' :: ds => fracMillis ds
  | '0' :: _ => 0
  | _ => 1000

/-- Extract the quality weight from the parameter parts of one Accept
item; absent weight is 1.0 (1000 per-mille). -/
def qFromParams : List (List Char) → Nat
  | [] => 1000
  | p :: ps =>
    match trimChars p with
    | 'q' :: '=' :: v => parseMillis v
    | _ => qFromParams ps

/-- Parse one Accept item `media-range[;params]` into (range, weight). -/
def parseAcceptItem (cs : List Char) : String × Nat :=
  match splitChar ';' cs with
  | [] => ("", 1000)
  | mr :: params => (String.mk (trimChars mr), qFromParams params)

/-- Parse a full Accept header into weighted media ranges. -/
def parseAccept (h : String) : List (String × Nat) :=
  (splitChar ',' h.data).map parseAcceptItem

/-- Sort key of a media range: weight first; at equal weight a concrete
type outranks the `*/*` wildcard (which matches at lowest certainty). -/
def acceptKey (it : String × Nat) : Nat :=
  it.2 * 2 + (if it.1 = "*/*" then 0 else 1)

/-- Stable insertion into a list sorted by decreasing `acceptKey`. -/
def insertByKey (x : String × Nat) : List (String × Nat) → List (String × Nat)
  | [] => [x]
  | y :: ys => if acceptKey y < acceptKey x then x :: y :: ys else y :: insertByKey x ys

/-- Stable sort by decreasing `acceptKey` (preference order). -/
def sortByKey : List (String × Nat) → List (String × Nat)
  | [] => []
  | x :: xs => insertByKey x (sortByKey xs)

/-- Walk the media ranges in preference order; for each acceptable range
return the first registered provider producing it (`*/*` accepts the
first registered provider outright); weight 0 marks a range as not
acceptable. -/
def selectByItems (providers : List Provider) : List (String × Nat) → Option Provider
  | [] => none
  | (mr, q) :: rest =>
    if q = 0 then selectByItems providers rest
    else if mr = "*/*" then providers.head?
    else
      match providers.find? (fun p => p.produces.contains mr) with
      | some p => some p
      | none => selectByItems providers rest

/-- Modelled from the spec: `SelectWriter(acceptHeader)`.  No header
falls back to the first registered provider; otherwise the Accept header
is parsed and the first provider producing an acceptable type under the
preference order is returned; `none` is the 406-equivalent negotiation
failure. -/
def selectWriter (providers : List Provider) (accept : Option String) :
    Option Provider :=
  match accept with
  | none => providers.head?
  | some h => selectByItems providers (sortByKey (parseAccept h))

/-! ## Serialization round-trip for the example resource value

The example application (`example/rest/rest.go`) serves `User` values
with a `Name` string field.  The provider encoders are modelled from the
spec: the JSON provider renders `{"Name": …}` with string escaping, the
XML provider renders `<User><Name>…</Name></User>` with entity
escaping. -/

/-- The domain value of the example resource. -/
structure User where
  name : String
deriving DecidableEq, Repr

/-- JSON string escaping: backslash-escape `"` and `\`. -/
def jsonEscape : List Char → List Char
  | [] => []
  | c :: cs =>
    if c = '\\' ∨ c = '"' then '\\' :: c :: jsonEscape cs else c :: jsonEscape cs

/-- Parse a JSON string body up to its closing quote, undoing the
escapes; returns the content and the input after the quote. -/
def jsonParseString : List Char → Option (List Char × List Char)
  | [] => none
  | c :: cs =>
    if c = '\\' then
      match cs with
      | [] => none
      | d :: ds => (jsonParseString ds).map (fun p => (d :: p.1, p.2))
    else if c = '"' then some ([], cs)
    else (jsonParseString cs).map (fun p => (c :: p.1, p.2))

/-- Drop an expected literal prefix, or fail. -/
def stripPrefixChars : List Char → List Char → Option (List Char)
  | [], rest => some rest
  | _, [] => none
  | p :: ps, c :: cs => if p = c then stripPrefixChars ps cs else none

/-- Modelled from the spec: the JSON provider's `Encode` on a `User`. -/
def encodeUserJSON (u : User) : List Char :=
  "\x7b\"Name\":\"".data ++ jsonEscape u.name.data ++ "\"\x7d".data

/-- Modelled from the spec: the JSON provider's `Decode` into a `User`. -/
def decodeUserJSON (bs : List Char) : Option User :=
  match stripPrefixChars "\x7b\"Name\":\"".data bs with
  | none => none
  | some r =>
    match jsonParseString r with
    | none => none
    | some (s, rest) =>
      if rest = "\x7d".data then some ⟨String.mk s⟩ else none

/-- XML entity escaping for text content. -/
def xmlEscape : List Char → List Char
  | [] => []
  | c :: cs =>
    if c = '&' then "&amp;".data ++ xmlEscape cs
    else if c = '<' then "&lt;".data ++ xmlEscape cs
    else if c = '>' then "&gt;".data ++ xmlEscape cs
    else c :: xmlEscape cs

/-- Parse XML text content up to the next `<`, undoing the entities; the
`<` is left in the remainder. -/
def xmlParseText : List Char → Option (List Char × List Char)
  | [] => none
  | c :: cs =>
    if c = '<' then some ([], c :: cs)
    else if c = '&' then
      match cs with
      | 'a' :: 'm' :: 'p' :: ';' :: ds => (xmlParseText ds).map (fun p => ('&' :: p.1, p.2))
      | 'l' :: 't' :: ';' :: ds => (xmlParseText ds).map (fun p => ('<' :: p.1, p.2))
      | 'g' :: 't' :: ';' :: ds => (xmlParseText ds).map (fun p => ('>' :: p.1, p.2))
      | _ => none
    else (xmlParseText cs).map (fun p => (c :: p.1, p.2))

/-- Modelled from the spec: the XML provider's `Encode` on a `User`. -/
def encodeUserXML (u : User) : List Char :=
  "<User><Name>".data ++ xmlEscape u.name.data ++ "</Name></User>".data

/-- Modelled from the spec: the XML provider's `Decode` into a `User`. -/
def decodeUserXML (bs : List Char) : Option User :=
  match stripPrefixChars "<User><Name>".data bs with
  | none => none
  | some r =>
    match xmlParseText r with
    | none => none
    | some (s, rest) =>
      if rest = "</Name></User>".data then some ⟨String.mk s⟩ else none

/-- Dispatch `Encode` through a provider of the registry. -/
def providerEncode (p : Provider) (u : User) : String :=
  if p.name = "json" then String.mk (encodeUserJSON u)
  else if p.name = "xml" then String.mk (encodeUserXML u)
  else ""

/-- Dispatch `Decode` through a provider of the registry. -/
def providerDecode (p : Provider) (bs : String) : Option User :=
  if p.name = "json" then decodeUserJSON bs.data
  else if p.name = "xml" then decodeUserXML bs.data
  else none

/-- Writing a negotiated response: a failed negotiation is the
406-equivalent error and writes no body at all; otherwise the encoded
body is written with status 200. -/
def writeNegotiated (providers : List Provider) (accept : Option String)
    (u : User) : HttpResp :=
  match selectWriter providers accept with
  | none => ⟨406, ""⟩
  | some p => ⟨200, providerEncode p u⟩

/-! ## Startup registration

Registration-time errors are fatal at startup: the server folds all
registrations through `handle` and does not begin serving when any of
them fails. -/

/-- Register a list of (method, pattern, handler) routes in order,
stopping at the first registration error. -/
def registerAll (routes : List Route) :
    List (String × String × Nat) → Except String (List Route)
  | [] => .ok routes
  | (m, p, h) :: rest =>
    match handle routes m p h with
    | .error e => .error e
    | .ok rs => registerAll rs rest

/-- Startup: build the route table from all registrations; any
registration failure means the server does not begin serving. -/
def startServing (regs : List (String × String × Nat)) : Option (List Route) :=
  match registerAll [] regs with
  | .error _ => none
  | .ok rs => some rs

/-! ## Admin environment (from `core/admin.go` in the provided sources) -/

/-- An admin page handler: its path and an opaque handler id. -/
structure AdminHandlerM where
  path : String
  hid : Nat
deriving DecidableEq, Repr

/-- An admin task: its name and an opaque handler id. -/
structure TaskM where
  name : String
  tid : Nat
deriving DecidableEq, Repr

/-- The admin tasks mount path (`tasksPath` in `core/admin.go`). -/
def tasksPath : String := "/tasks"

/-- `AdminEnvironment.start` registers, through the shared `Handle`
contract and in this order: the index page under `GET /`, every admin
page handler under method `"*"` at its path, and every task under
`POST {tasksPath}/{name}`. -/
def adminStart (routes : List Route) (idxHandler : Nat)
    (handlers : List AdminHandlerM) (tasks : List TaskM) :
    Except String (List Route) :=
  match handle routes "GET" "/" idxHandler with
  | .error e => .error e
  | .ok r1 =>
    match registerAll r1 (handlers.map (fun h => ("*", h.path, h.hid))) with
    | .error e => .error e
    | .ok r2 => registerAll r2 (tasks.map (fun t => ("POST", tasksPath ++ "/" ++ t.name, t.tid)))

/-! ## Health checks (from `core/admin.go` in the provided sources) -/

/-- One health check result: healthy flag, message, optional cause. -/
structure HealthResult where
  healthy : Bool
  message : String
  cause : Option String
deriving DecidableEq, Repr

/-- `isAllHealthy`: false as soon as one result is unhealthy, true
otherwise. -/
def isAllHealthy (results : List (String × HealthResult)) : Bool :=
  results.all (fun r => r.2.healthy)

/-- A response with the header the health handler sets. -/
structure AdminResp where
  code : Nat
  contentType : String
  body : String
deriving DecidableEq, Repr

/-- Go's `%q` quoting of a string, modelled as quote-and-escape. -/
def quoteGo (s : String) : String :=
  String.mk ('"' :: jsonEscape s.data ++ ['"'])

/-- One entry of the health check JSON body, as printed by the loop in
`healthCheckHandler.ServeHTTP`. -/
def healthEntry (name : String) (r : HealthResult) : String :=
  "\n" ++ quoteGo name ++ ": \x7b\"Healthy\": " ++ (if r.healthy then "true" else "false")
    ++ (if r.message = "" then "" else ", \"Message\": " ++ quoteGo r.message)
    ++ (match r.cause with
        | none => ""
        | some c => ", \"Cause\": " ++ quoteGo c)
    ++ "\x7d"

/-- Join strings with commas (the `first` flag of the printing loop). -/
def joinComma : List String → String
  | [] => ""
  | [s] => s
  | s :: rest => s ++ "," ++ joinComma rest

/-- The JSON body written for a non-empty result set. -/
def healthBody (results : List (String × HealthResult)) : String :=
  "\x7b" ++ joinComma (results.map (fun p => healthEntry p.1 p.2)) ++ "\n\x7d\n"

/-- `healthCheckHandler.ServeHTTP`: with no results, reply through
`http.Error` with 501 and the fixed message (plus its trailing newline,
under `text/plain`); otherwise reply `application/json`, with status 500
when any result is unhealthy and the default 200 otherwise. -/
def healthCheckServe (results : List (String × HealthResult)) : AdminResp :=
  if results.length = 0 then
    ⟨501, "text/plain; charset=utf-8", "No health checks registered.\n"⟩
  else
    ⟨if isAllHealthy results then 200 else 500, "application/json", healthBody results⟩

/-! ## Helper lemmas -/

theorem unifiable_refl : ∀ p : List Seg, unifiable p p = true := by
  intro p
  induction p with
  | nil => rfl
  | cons s ps ih => cases s <;> simp [unifiable, ih]

theorem ties_refl (p : List Seg) : ties p p = true := by
  simp [ties, unifiable_refl]

theorem handle_ok_eq {rs : List Route} {m p : String} {h : Nat} {rs' : List Route}
    (hok : handle rs m p h = .ok rs') :
    rs' = rs ++ [⟨m, patternSegs p, h⟩] := by
  simp only [handle] at hok
  split at hok
  · exact absurd hok (by simp)
  · exact (Except.ok.injEq _ _ ▸ congrArg id hok).symm ▸ by
      cases hok
      rfl

theorem handle_error_of_mem {rs : List Route} {m p : String} {h h₀ : Nat}
    (hmem : Route.mk m (patternSegs p) h₀ ∈ rs) :
    handle rs m p h = .error ("duplicate route: " ++ m ++ " " ++ p) := by
  have hany : rs.any (fun r => r.method = m && ties r.pattern (patternSegs p)) = true := by
    refine List.any_eq_true.mpr ⟨⟨m, patternSegs p, h₀⟩, hmem, ?_⟩
    simp [ties_refl]
  simp [handle, hany]

theorem registerAll_append (rs : List Route) (xs ys : List (String × String × Nat)) :
    registerAll rs (xs ++ ys) =
      match registerAll rs xs with
      | .error e => .error e
      | .ok rs' => registerAll rs' ys := by
  induction xs generalizing rs with
  | nil => simp [registerAll]
  | cons x xs ih =>
    obtain ⟨m, p, h⟩ := x
    simp only [List.cons_append, registerAll]
    cases handle rs m p h with
    | error e => rfl
    | ok rs₁ => exact ih rs₁

theorem registerAll_ok_sub {rs rs' : List Route} {regs : List (String × String × Nat)}
    (hok : registerAll rs regs = .ok rs') : ∀ r ∈ rs, r ∈ rs' := by
  induction regs generalizing rs with
  | nil =>
    simp only [registerAll] at hok
    cases hok
    exact fun r hr => hr
  | cons x xs ih =>
    obtain ⟨m, p, h⟩ := x
    simp only [registerAll] at hok
    cases heq : handle rs m p h with
    | error e => rw [heq] at hok; exact absurd hok (by simp)
    | ok rs₁ =>
      rw [heq] at hok
      intro r hr
      exact ih hok r (handle_ok_eq heq ▸ List.mem_append_left _ hr)

theorem registerAll_ok_mem {rs rs' : List Route} {regs : List (String × String × Nat)}
    (hok : registerAll rs regs = .ok rs') :
    ∀ x ∈ regs, Route.mk x.1 (patternSegs x.2.1) x.2.2 ∈ rs' := by
  induction regs generalizing rs with
  | nil => intro x hx; exact absurd hx (List.not_mem_nil x)
  | cons y ys ih =>
    obtain ⟨m, p, h⟩ := y
    simp only [registerAll] at hok
    cases heq : handle rs m p h with
    | error e => rw [heq] at hok; exact absurd hok (by simp)
    | ok rs₁ =>
      rw [heq] at hok
      intro x hx
      rcases List.mem_cons.mp hx with hx | hx
      · subst hx
        exact registerAll_ok_sub hok _ (handle_ok_eq heq ▸ List.mem_append_right _ (by simp))
      · exact ih hok x hx

theorem pickMin_eq_none {xs : List (Route × List (String × String))} :
    pickMin xs = none ↔ xs = [] := by
  cases xs with
  | nil => simp [pickMin]
  | cons x xs =>
    constructor
    · intro h
      exfalso
      cases heq : pickMin xs with
      | none => exact Option.noConfusion (by simpa only [pickMin, heq] using h)
      | some z =>
        simp only [pickMin, heq] at h
        by_cases hle : paramCount x.1.pattern ≤ paramCount z.1.pattern
        · rw [if_pos hle] at h; exact Option.noConfusion h
        · rw [if_neg hle] at h; exact Option.noConfusion h
    · intro h; exact absurd h (by simp)

theorem pickMin_mem {xs : List (Route × List (String × String))}
    {y : Route × List (String × String)} (hy : pickMin xs = some y) : y ∈ xs := by
  induction xs with
  | nil => exact absurd hy (by simp [pickMin])
  | cons x xs ih =>
    cases heq : pickMin xs with
    | none => simp only [pickMin, heq] at hy; cases hy; exact List.mem_cons_self _ _
    | some z =>
      simp only [pickMin, heq] at hy
      by_cases hle : paramCount x.1.pattern ≤ paramCount z.1.pattern
      · rw [if_pos hle] at hy; cases hy; exact List.mem_cons_self _ _
      · rw [if_neg hle] at hy
        injection hy with hzy
        subst hzy
        exact List.mem_cons_of_mem _ (ih heq)

theorem pickMin_min : ∀ {xs : List (Route × List (String × String))}
    {y : Route × List (String × String)}, pickMin xs = some y →
    ∀ x ∈ xs, paramCount y.1.pattern ≤ paramCount x.1.pattern := by
  intro xs
  induction xs with
  | nil => intro y hy; exact absurd hy (by simp [pickMin])
  | cons x xs ih =>
    intro y hy
    cases heq : pickMin xs with
    | none =>
      simp only [pickMin, heq] at hy
      cases hy
      have hxs : xs = [] := pickMin_eq_none.mp heq
      subst hxs
      intro z hz
      rcases List.mem_cons.mp hz with hz | hz
      · subst hz; exact le_refl _
      · exact absurd hz (List.not_mem_nil z)
    | some z =>
      simp only [pickMin, heq] at hy
      by_cases hle : paramCount x.1.pattern ≤ paramCount z.1.pattern
      · rw [if_pos hle] at hy
        cases hy
        intro w hw
        rcases List.mem_cons.mp hw with hw | hw
        · subst hw; exact le_refl _
        · exact le_trans hle (ih heq w hw)
      · rw [if_neg hle] at hy
        injection hy with hzy
        subst hzy
        intro w hw
        rcases List.mem_cons.mp hw with hw | hw
        · subst hw; exact le_of_not_le hle
        · exact ih heq w hw

theorem matchSegs_length {ps : List Seg} {ss : List String}
    {b : List (String × String)} (h : matchSegs ps ss = some b) :
    ps.length = ss.length := by
  induction ps generalizing ss b with
  | nil =>
    cases ss with
    | nil => rfl
    | cons s ss => exact absurd h (by simp [matchSegs])
  | cons p ps ih =>
    cases ss with
    | nil => cases p <;> exact absurd h (by simp [matchSegs])
    | cons s ss =>
      cases p with
      | lit l =>
        simp only [matchSegs] at h
        split at h
        · simp [ih h]
        · exact absurd h (by simp)
      | param n =>
        simp only [matchSegs] at h
        split at h
        · exact absurd h (by simp)
        · cases heq : matchSegs ps ss with
          | none => rw [heq] at h; exact absurd h (by simp)
          | some b' => simp [ih heq]

theorem stripPrefixChars_append (ps rest : List Char) :
    stripPrefixChars ps (ps ++ rest) = some rest := by
  induction ps with
  | nil => simp [stripPrefixChars]
  | cons p ps ih => simp [stripPrefixChars, ih]

theorem jsonParseString_escape (s rest : List Char) :
    jsonParseString (jsonEscape s ++ '"' :: rest) = some (s, rest) := by
  induction s with
  | nil =>
    have h0 : jsonEscape [] = [] := rfl
    rw [h0, List.nil_append, jsonParseString.eq_def]
    simp
  | cons c cs ih =>
    by_cases hb : c = '\\'
    · subst hb
      have h1 : jsonEscape ('\\' :: cs) = '\\' :: '\\' :: jsonEscape cs := by
        simp [jsonEscape]
      rw [h1, List.cons_append, List.cons_append, jsonParseString.eq_def]
      simp [ih]
    · by_cases hq : c = '"'
      · subst hq
        have h1 : jsonEscape ('"' :: cs) = '\\' :: '"' :: jsonEscape cs := by
          simp [jsonEscape]
        rw [h1, List.cons_append, List.cons_append, jsonParseString.eq_def]
        simp [ih]
      · have h1 : jsonEscape (c :: cs) = c :: jsonEscape cs := by
          simp [jsonEscape, hb, hq]
        rw [h1, List.cons_append, jsonParseString.eq_def]
        simp [hb, hq, ih]

theorem decodeUserJSON_encodeUserJSON (u : User) :
    decodeUserJSON (encodeUserJSON u) = some u := by
  have h1 : encodeUserJSON u =
      "\x7b\"Name\":\"".data ++ (jsonEscape u.name.data ++ '"' :: "\x7d".data) := by
    simp [encodeUserJSON]
  rw [decodeUserJSON.eq_def, h1, stripPrefixChars_append]
  simp [jsonParseString_escape]

theorem xmlParseText_escape (s rest : List Char) :
    xmlParseText (xmlEscape s ++ '<' :: rest) = some (s, '<' :: rest) := by
  induction s with
  | nil =>
    have h0 : xmlEscape [] = [] := rfl
    rw [h0, List.nil_append, xmlParseText.eq_def]
    simp
  | cons c cs ih =>
    by_cases h1 : c = '&'
    · subst h1
      have he : xmlEscape ('&' :: cs) = '&' :: 'a' :: 'm' :: 'p' :: ';' :: xmlEscape cs := by
        simp [xmlEscape]
      rw [he, List.cons_append, xmlParseText.eq_def]
      simp [ih]
    · by_cases h2 : c = '<'
      · subst h2
        have he : xmlEscape ('<' :: cs) = '&' :: 'l' :: 't' :: ';' :: xmlEscape cs := by
          simp [xmlEscape]
        rw [he, List.cons_append, xmlParseText.eq_def]
        simp [ih]
      · by_cases h3 : c = '>'
        · subst h3
          have he : xmlEscape ('>' :: cs) = '&' :: 'g' :: 't' :: ';' :: xmlEscape cs := by
            simp [xmlEscape]
          rw [he, List.cons_append, xmlParseText.eq_def]
          simp [ih]
        · have he : xmlEscape (c :: cs) = c :: xmlEscape cs := by
            simp [xmlEscape, h1, h2, h3]
          rw [he, List.cons_append, xmlParseText.eq_def]
          simp [h1, h2, ih]

theorem decodeUserXML_encodeUserXML (u : User) :
    decodeUserXML (encodeUserXML u) = some u := by
  have h1 : encodeUserXML u =
      "<User><Name>".data ++ (xmlEscape u.name.data ++ '<' :: "/Name></User>".data) := by
    simp [encodeUserXML]
  rw [decodeUserXML.eq_def, h1, stripPrefixChars_append]
  simp [xmlParseText_escape]

theorem handleLoop_eq (hs : List Nat) (c : Nat) :
    ∀ n, n ≤ hs.length →
      handleLoop hs c n = ((hs.take n).reverse).map (fun h => (h, c)) := by
  intro n
  induction n with
  | zero => intro _; simp [handleLoop]
  | succ i ih =>
    intro hle
    have hi : i < hs.length := hle
    have h1 : hs.take (i + 1) = hs.take i ++ [hs[i]] := by
      rw [List.take_succ, List.getElem?_eq_getElem hi]
      rfl
    rw [handleLoop, ih (le_of_lt hi), h1, List.reverse_append]
    simp only [List.reverse_singleton, List.singleton_append, List.map_cons]
    rw [List.getD_eq_getElem?_getD, List.getElem?_eq_getElem hi]
    rfl

theorem handle_error_of_ties {rs : List Route} {m p : String} {h : Nat}
    (r : Route) (hmem : r ∈ rs) (hm : r.method = m)
    (ht : ties r.pattern (patternSegs p) = true) :
    handle rs m p h = .error ("duplicate route: " ++ m ++ " " ++ p) := by
  have hany : rs.any (fun r => r.method = m && ties r.pattern (patternSegs p)) = true :=
    List.any_eq_true.mpr ⟨r, hmem, by simp [hm, ht]⟩
  simp [handle, hany]

theorem registerAll_append_ok (xs ys : List (String × String × Nat))
    {rs rs₁ : List Route} (h : registerAll rs xs = .ok rs₁) :
    registerAll rs (xs ++ ys) = registerAll rs₁ ys := by
  rw [registerAll_append, h]

theorem registerAll_append_err (xs ys : List (String × String × Nat))
    {rs : List Route} {e : String} (h : registerAll rs xs = .error e) :
    registerAll rs (xs ++ ys) = .error e := by
  rw [registerAll_append, h]

theorem registerAll_cons_ok (rest : List (String × String × Nat))
    {rs rs₁ : List Route} {m p : String} {h : Nat}
    (hh : handle rs m p h = .ok rs₁) :
    registerAll rs ((m, p, h) :: rest) = registerAll rs₁ rest := by
  simp only [registerAll, hh]

theorem registerAll_cons_err (rest : List (String × String × Nat))
    {rs : List Route} {e : String} {m p : String} {h : Nat}
    (hh : handle rs m p h = .error e) :
    registerAll rs ((m, p, h) :: rest) = .error e := by
  simp only [registerAll, hh]

theorem mem_filter_method {cands : List (Route × List (String × String))}
    {m : String} {rb : Route × List (String × String)}
    (hmem : rb ∈ cands.filter (fun c => c.1.method = m)) : rb.1.method = m := by
  have := (List.mem_filter.mp hmem).2
  exact of_decide_eq_true this

theorem candidates_isEmpty_false {routes : List Route} {segs : List String}
    {rb : Route × List (String × String)} (h : rb ∈ candidates routes segs) :
    (candidates routes segs).isEmpty = false := by
  cases hcs : candidates routes segs with
  | nil => rw [hcs] at h; exact absurd h (List.not_mem_nil _)
  | cons a l => rfl

end Melon

namespace Melon

/-- C1: under a chain whose outermost filter is the Recovery Filter, a
panicking terminal chain produces exactly the fixed 500 response with
the non-empty plain-text body, the panic never crosses the chain
boundary, and the worker serving the request queue answers every request
(so it survives to handle subsequent, unrelated requests). -/
theorem recovery_isolates_panics :
    ∀ (filters : List FilterFn) (terminal : HttpReq → HandlerOutcome),
    (∀ r msg, chainServe filters terminal r = .panicked msg →
      chainServe (recoveryFilter :: filters) terminal r = .ok ⟨500, recoveryBody⟩) ∧
    recoveryBody ≠ "" ∧
    (∀ r msg, chainServe (recoveryFilter :: filters) terminal r ≠ .panicked msg) ∧
    (∀ reqs : List HttpReq,
      (runWorker (chainServe (recoveryFilter :: filters) terminal) reqs).length =
        reqs.length) := by
  intro filters terminal
  refine ⟨?_, by decide, ?_, ?_⟩
  · intro r msg hpanic
    simp [chainServe, recoveryFilter, hpanic]
  · intro r msg
    simp only [chainServe, recoveryFilter]
    cases chainServe filters terminal r <;> simp
  · intro reqs
    induction reqs with
    | nil => rfl
    | cons r rs ih =>
      cases hc : chainServe (recoveryFilter :: filters) terminal r with
      | ok resp => simp only [runWorker, hc, List.length_cons, ih]
      | panicked msg =>
        exfalso
        have hc2 : recoveryFilter (chainServe filters terminal) r =
            HandlerOutcome.panicked msg := hc
        unfold recoveryFilter at hc2
        cases h3 : chainServe filters terminal r with
        | ok resp2 => rw [h3] at hc2; simp at hc2
        | panicked m2 => rw [h3] at hc2; simp at hc2

/-- C1 witness: a terminal handler that always panics, behind the
recovery filter, yields the fixed 500 response. -/
theorem recovery_isolates_panics_witness :
    chainServe (recoveryFilter :: []) (fun _ => HandlerOutcome.panicked "boom")
      ⟨"GET", "/"⟩ = .ok ⟨500, recoveryBody⟩ :=
  (recovery_isolates_panics [] (fun _ => HandlerOutcome.panicked "boom")).1
    ⟨"GET", "/"⟩ "boom" rfl

/-- C3: with providers registered in order [JSON, XML], an Accept header
of `application/xml` selects the XML provider; an absent header or `*/*`
selects the first-registered JSON provider; an Accept header of only
`application/pdf` fails negotiation (406-equivalent) and writes no
partial body. -/
theorem negotiation_cases :
    selectWriter restProviders (some "application/xml") = some xmlProvider ∧
    selectWriter restProviders none = some jsonProvider ∧
    selectWriter restProviders (some "*/*") = some jsonProvider ∧
    selectWriter restProviders (some "application/pdf") = none ∧
    writeNegotiated restProviders (some "application/pdf") ⟨"bob"⟩ = ⟨406, ""⟩ := by
  refine ⟨by decide, by decide, by decide, by decide, by decide⟩

/-- C7: for every value of the example resource type, decoding the bytes
produced by a registered provider's `Encode` reconstructs the value
(round-trip identity), for each provider in the registry. -/
theorem provider_roundtrip :
    ∀ (u : User) (p : Provider), p ∈ restProviders →
      providerDecode p (providerEncode p u) = some u := by
  intro u p hp
  rcases List.mem_cons.mp hp with hp | hp
  · subst hp
    have hd : providerDecode jsonProvider (providerEncode jsonProvider u) =
        decodeUserJSON (encodeUserJSON u) := rfl
    rw [hd]
    exact decodeUserJSON_encodeUserJSON u
  · rcases List.mem_cons.mp hp with hp | hp
    · subst hp
      have hd : providerDecode xmlProvider (providerEncode xmlProvider u) =
          decodeUserXML (encodeUserXML u) := rfl
      rw [hd]
      exact decodeUserXML_encodeUserXML u
    · exact absurd hp (List.not_mem_nil p)

/-- C7 witness: the JSON provider round-trips a concrete user. -/
theorem provider_roundtrip_witness :
    providerDecode jsonProvider (providerEncode jsonProvider ⟨"alice"⟩) =
      some ⟨"alice"⟩ :=
  provider_roundtrip ⟨"alice"⟩ jsonProvider (by decide)

/-- C9: at server start, every registered component is passed to every
added resource handler, and for each component the resource handlers run
in reverse of the order in which they were added (last-added first). -/
theorem server_onStarting_trace :
    ∀ env : ServerEnvironment,
      env.onStarting =
        env.components.flatMap
          (fun c => env.resourceHandlers.reverse.map (fun h => (h, c))) := by
  intro env
  unfold ServerEnvironment.onStarting
  congr 1
  funext c
  unfold ServerEnvironment.handleComponent
  rw [handleLoop_eq env.resourceHandlers c env.resourceHandlers.length (le_refl _),
    List.take_length]

/-- C10: the health-check admin handler replies 501 with the fixed
message when no checks are registered; otherwise it replies
`application/json` with status 500 exactly when some result is
unhealthy and 200 exactly when all are healthy, and `isAllHealthy` is
true exactly when every result is healthy. -/
theorem healthcheck_handler_spec :
    healthCheckServe [] =
      ⟨501, "text/plain; charset=utf-8", "No health checks registered.\n"⟩ ∧
    (∀ results, results ≠ [] →
      (healthCheckServe results).contentType = "application/json" ∧
      ((healthCheckServe results).code = 500 ↔ isAllHealthy results = false) ∧
      ((healthCheckServe results).code = 200 ↔ isAllHealthy results = true)) ∧
    (∀ results, isAllHealthy results = true ↔
      ∀ p ∈ results, p.2.healthy = true) := by
  refine ⟨by decide, ?_, ?_⟩
  · intro results hne
    have hlen : results.length ≠ 0 := fun h => hne (List.eq_nil_of_length_eq_zero h)
    unfold healthCheckServe
    rw [if_neg hlen]
    cases hah : isAllHealthy results <;> simp [hah]
  · intro results
    unfold isAllHealthy
    rw [List.all_eq_true]

/-- C10 witness: a concrete unhealthy result set gets status 500 under
`application/json`. -/
theorem healthcheck_handler_spec_witness :
    (healthCheckServe [("db", ⟨false, "down", none⟩)]).contentType =
        "application/json" ∧
      ((healthCheckServe [("db", ⟨false, "down", none⟩)]).code = 500 ↔
        isAllHealthy [("db", ⟨false, "down", none⟩)] = false) :=
  ⟨(healthcheck_handler_spec.2.1 [("db", ⟨false, "down", none⟩)] (by decide)).1,
   (healthcheck_handler_spec.2.1 [("db", ⟨false, "down", none⟩)] (by decide)).2.1⟩

/-- C2: among matching patterns `Match` picks the one with the fewest
parameter segments (so with `/user/:name` and `/user/admin` both
registered for GET, a GET to `/user/admin` resolves to the literal
route), and two matching patterns with an equal number of parameter
segments are rejected at registration time, never resolved at request
time. -/
theorem match_specificity :
    (∀ routes m path rb,
      pickMin ((candidates routes (pathSegs path)).filter
        (fun c => c.1.method = m)) = some rb →
      matchReq routes m path = .found rb.1.handler rb.2 ∧
      ∀ c ∈ (candidates routes (pathSegs path)).filter (fun c => c.1.method = m),
        paramCount rb.1.pattern ≤ paramCount c.1.pattern) ∧
    (matchReq [⟨"GET", patternSegs "/user/:name", 1⟩,
        ⟨"GET", patternSegs "/user/admin", 2⟩] "GET" "/user/admin" =
      .found 2 []) ∧
    (∀ routes m p₁ p₂ h₁ h₂ rs',
      ties (patternSegs p₁) (patternSegs p₂) = true →
      handle routes m p₁ h₁ = .ok rs' →
      handle rs' m p₂ h₂ = .error ("duplicate route: " ++ m ++ " " ++ p₂)) := by
  refine ⟨?_, by decide, ?_⟩
  · intro routes m path rb hpick
    have hmemf := pickMin_mem hpick
    have hc : rb ∈ candidates routes (pathSegs path) := List.mem_of_mem_filter hmemf
    have hne := candidates_isEmpty_false hc
    refine ⟨?_, pickMin_min hpick⟩
    simp [matchReq, hne, hpick]
  · intro routes m p₁ p₂ h₁ h₂ rs' htie hok
    have heq := handle_ok_eq hok
    subst heq
    exact handle_error_of_ties ⟨m, patternSegs p₁, h₁⟩
      (List.mem_append_right _ (by simp)) rfl htie

/-- C2 witness: registering two tying one-parameter patterns for the
same method fails on the second registration. -/
theorem match_specificity_witness :
    handle [⟨"GET", patternSegs "/a/:x", 1⟩] "GET" "/a/:y" 2 =
      .error ("duplicate route: " ++ "GET" ++ " " ++ "/a/:y") :=
  match_specificity.2.2 [] "GET" "/a/:x" "/a/:y" 1 2
    [⟨"GET", patternSegs "/a/:x", 1⟩] (by decide) (by rfl)

/-- C4: when the path matches some registered pattern but no matching
route has the request's method (nor `"*"`), `Match` returns the 405
outcome, and its allowed-methods list contains exactly the methods of
the routes whose pattern matches the path. -/
theorem method_not_allowed_spec :
    ∀ routes m path,
      candidates routes (pathSegs path) ≠ [] →
      (∀ c ∈ candidates routes (pathSegs path),
        c.1.method ≠ m ∧ c.1.method ≠ "*") →
      matchReq routes m path =
        .methodNotAllowed
          (((candidates routes (pathSegs path)).map (fun c => c.1.method)).dedup) ∧
      ∀ m', m' ∈ ((candidates routes (pathSegs path)).map
          (fun c => c.1.method)).dedup ↔
        ∃ c, c ∈ candidates routes (pathSegs path) ∧ c.1.method = m' := by
  intro routes m path hne hnom
  have hfe : (candidates routes (pathSegs path)).filter
      (fun c => c.1.method = m) = [] := by
    refine List.filter_eq_nil_iff.mpr ?_
    intro c hc
    simp [(hnom c hc).1]
  have hfw : (candidates routes (pathSegs path)).filter
      (fun c => c.1.method = "*") = [] := by
    refine List.filter_eq_nil_iff.mpr ?_
    intro c hc
    simp [(hnom c hc).2]
  have hie : (candidates routes (pathSegs path)).isEmpty = false := by
    cases hcs : candidates routes (pathSegs path) with
    | nil => exact absurd hcs hne
    | cons a l => rfl
  constructor
  · simp [matchReq, hie, hfe, hfw, pickMin]
  · intro m'
    rw [List.mem_dedup, List.mem_map]

/-- C4 witness: a POST to a path registered only for GET is answered
with 405 listing GET. -/
theorem method_not_allowed_spec_witness :
    matchReq [⟨"GET", patternSegs "/user/:name", 1⟩] "POST" "/user/alice" =
      .methodNotAllowed
        (((candidates [⟨"GET", patternSegs "/user/:name", 1⟩]
          (pathSegs "/user/alice")).map (fun c => c.1.method)).dedup) :=
  (method_not_allowed_spec [⟨"GET", patternSegs "/user/:name", 1⟩] "POST"
    "/user/alice" (by decide) (by decide)).1

/-- C5: the pattern `/user/:name` matches `/user/alice` binding
`name ↦ alice`; a parameter segment binds only a non-empty request
segment; a successful segment match forces equal segment counts; and a
request with a different segment count (`/user`) does not match. -/
theorem path_param_binding :
    (matchReq [⟨"GET", patternSegs "/user/:name", 1⟩] "GET" "/user/alice" =
      .found 1 [("name", "alice")]) ∧
    (∀ (n : String) ps ss, matchSegs (Seg.param n :: ps) ("" :: ss) = none) ∧
    (∀ ps ss b, matchSegs ps ss = some b → List.length ps = List.length ss) ∧
    (matchReq [⟨"GET", patternSegs "/user/:name", 1⟩] "GET" "/user" =
      .notFound) := by
  refine ⟨by decide, ?_, ?_, by decide⟩
  · intro n ps ss
    simp [matchSegs]
  · intro ps ss b h
    exact matchSegs_length h

/-- C5 witness: the successful match of `/user/:name` against
`/user/alice` has equal segment counts. -/
theorem path_param_binding_witness :
    List.length (patternSegs "/user/:name") =
      List.length (pathSegs "/user/alice") :=
  path_param_binding.2.2.1 (patternSegs "/user/:name") (pathSegs "/user/alice")
    [("name", "alice")] (by decide)

/-- C6: registering the same (method, pattern) pair twice fails at
registration time, and a registration list containing a duplicated pair
prevents the server from beginning to serve. -/
theorem duplicate_registration_fatal :
    (∀ routes m p h h' rs',
      handle routes m p h = .ok rs' →
      handle rs' m p h' = .error ("duplicate route: " ++ m ++ " " ++ p)) ∧
    (∀ (l₁ l₂ l₃ : List (String × String × Nat)) m p h₁ h₂,
      startServing (l₁ ++ (m, p, h₁) :: (l₂ ++ (m, p, h₂) :: l₃)) = none) := by
  constructor
  · intro routes m p h h' rs' hok
    have heq := handle_ok_eq hok
    subst heq
    exact handle_error_of_ties ⟨m, patternSegs p, h⟩
      (List.mem_append_right _ (by simp)) rfl (ties_refl _)
  · intro l₁ l₂ l₃ m p h₁ h₂
    have hex : ∃ e, registerAll []
        (l₁ ++ (m, p, h₁) :: (l₂ ++ (m, p, h₂) :: l₃)) = .error e := by
      cases h1 : registerAll ([] : List Route) l₁ with
      | error e => exact ⟨e, registerAll_append_err _ _ h1⟩
      | ok rs₁ =>
        rw [registerAll_append_ok _ _ h1]
        cases h2 : handle rs₁ m p h₁ with
        | error e => exact ⟨e, registerAll_cons_err _ h2⟩
        | ok rs₂ =>
          rw [registerAll_cons_ok _ h2]
          cases h3 : registerAll rs₂ l₂ with
          | error e => exact ⟨e, registerAll_append_err _ _ h3⟩
          | ok rs₃ =>
            rw [registerAll_append_ok _ _ h3]
            have hmem : Route.mk m (patternSegs p) h₁ ∈ rs₃ :=
              registerAll_ok_sub h3 _
                (handle_ok_eq h2 ▸ List.mem_append_right _ (by simp))
            exact ⟨_, registerAll_cons_err _
              (handle_error_of_ties ⟨m, patternSegs p, h₁⟩ hmem rfl (ties_refl _))⟩
    obtain ⟨e, he⟩ := hex
    simp [startServing, he]

/-- C6 witness: the same (GET, /ping) pair registered twice fails on the
second registration. -/
theorem duplicate_registration_fatal_witness :
    handle [⟨"GET", patternSegs "/ping", 1⟩] "GET" "/ping" 2 =
      .error ("duplicate route: " ++ "GET" ++ " " ++ "/ping") :=
  duplicate_registration_fatal.1 [] "GET" "/ping" 1 2
    [⟨"GET", patternSegs "/ping", 1⟩] (by rfl)

/-- C8: the admin environment registers its index page, page handlers
(method `"*"`) and tasks (method POST under the tasks path) through the
same `Handle` contract as every other route, and at match time a `"*"`
route is used only when no exact-method route matches: an exact-method
match is always preferred, and a `"*"` match implies no exact-method
candidate existed. -/
theorem admin_registration_and_wildcard :
    (∀ routes idx (handlers : List AdminHandlerM) (tasks : List TaskM) rs',
      adminStart routes idx handlers tasks = .ok rs' →
      Route.mk "GET" (patternSegs "/") idx ∈ rs' ∧
      (∀ h ∈ handlers, Route.mk "*" (patternSegs h.path) h.hid ∈ rs') ∧
      (∀ t ∈ tasks,
        Route.mk "POST" (patternSegs (tasksPath ++ "/" ++ t.name)) t.tid ∈ rs')) ∧
    (∀ routes m path rb,
      pickMin ((candidates routes (pathSegs path)).filter
        (fun c => c.1.method = m)) = some rb →
      ∃ c : Route × List (String × String),
        matchReq routes m path = .found c.1.handler c.2 ∧ c.1.method = m) ∧
    (∀ routes m path rb,
      (candidates routes (pathSegs path)).filter (fun c => c.1.method = m) = [] →
      pickMin ((candidates routes (pathSegs path)).filter
        (fun c => c.1.method = "*")) = some rb →
      matchReq routes m path = .found rb.1.handler rb.2 ∧
        rb.1.method = "*") := by
  refine ⟨?_, ?_, ?_⟩
  · intro routes idx handlers tasks rs' hok
    unfold adminStart at hok
    cases h1 : handle routes "GET" "/" idx with
    | error e => simp only [h1] at hok; exact absurd hok (by simp)
    | ok r₁ =>
      simp only [h1] at hok
      cases h2 : registerAll r₁ (handlers.map (fun h => ("*", h.path, h.hid))) with
      | error e => simp only [h2] at hok; exact absurd hok (by simp)
      | ok r₂ =>
        simp only [h2] at hok
        refine ⟨?_, ?_, ?_⟩
        · exact registerAll_ok_sub hok _ (registerAll_ok_sub h2 _
            (handle_ok_eq h1 ▸ List.mem_append_right _ (by simp)))
        · intro h hh
          have hx : ("*", h.path, h.hid) ∈
              handlers.map (fun h => ("*", h.path, h.hid)) :=
            List.mem_map.mpr ⟨h, hh, rfl⟩
          exact registerAll_ok_sub hok _ (registerAll_ok_mem h2 _ hx)
        · intro t ht
          have hx : ("POST", tasksPath ++ "/" ++ t.name, t.tid) ∈
              tasks.map (fun t => ("POST", tasksPath ++ "/" ++ t.name, t.tid)) :=
            List.mem_map.mpr ⟨t, ht, rfl⟩
          exact registerAll_ok_mem hok _ hx
  · intro routes m path rb hpick
    have hmemf := pickMin_mem hpick
    have hc : rb ∈ candidates routes (pathSegs path) := List.mem_of_mem_filter hmemf
    have hne := candidates_isEmpty_false hc
    refine ⟨rb, ?_, mem_filter_method hmemf⟩
    simp [matchReq, hne, hpick]
  · intro routes m path rb hfe hpick
    have hmemf := pickMin_mem hpick
    have hc : rb ∈ candidates routes (pathSegs path) := List.mem_of_mem_filter hmemf
    have hne := candidates_isEmpty_false hc
    refine ⟨?_, mem_filter_method hmemf⟩
    simp [matchReq, hne, hfe, pickMin, hpick]

/-- C8 witness: a GET to a path registered only under `"*"` is served by
the `"*"` route. -/
theorem admin_registration_and_wildcard_witness :
    matchReq [⟨"*", patternSegs "/ping", 5⟩] "GET" "/ping" =
      .found (Route.mk "*" (patternSegs "/ping") 5).handler [] ∧
    (Route.mk "*" (patternSegs "/ping") 5).method = "*" :=
  admin_registration_and_wildcard.2.2 [⟨"*", patternSegs "/ping", 5⟩] "GET"
    "/ping" (⟨"*", patternSegs "/ping", 5⟩, []) (by decide) (by decide)

end Melon
